import Mathlib

/-!
Shallow embedding of `twiggy/lib/converter.py`.

The module defines two entities:

* `Converter` (the spec calls it "Rule"): a record of a key, two transform
  functions and a `required` flag.
* `ConversionTable` (the spec's "RuleTable"): an ordered list of `Converter`s
  plus three policy functions (`genericValue`, `genericItem`, `aggregate`),
  with the `convert` operation.

Python's dynamically typed values are embedded with type parameters:
`K` for keys (linearly ordered, as the code sorts keys), `V` for input and
converted values, `I` for items, `R` for the aggregated result.  Python's
`None` sentinel returned by `convertItem` / `genericItem` is embedded as
`Option.none`; input dictionaries are association lists with no duplicate
keys.  `raise ValueError` is embedded as `Except.error`.
-/

set_option autoImplicit false

/-- Embedding of `Converter.__init__` from the source: key, value transform, item
transform, and the `required` flag defaulting to false. -/
structure Converter (K V I : Type) where
  key : K
  convertValue : V → V
  convertItem : K → V → Option I
  required : Bool := false

/-- The data carried by a `ConversionTable` instance: the underlying list of
converters (the Python class subclasses `list`) together with the three
policy functions, each overridable per instance. -/
structure ConversionTable (K V I R : Type) where
  rules : List (Converter K V I)
  genericValue : V → V
  genericItem : K → V → Option I
  aggregate : List I → R

variable {K V I R : Type}

/-- Python `d[k]` / `k in d` on an association-list dictionary: the value at
the first pair whose key is `k`, if any. -/
def dictGet [DecidableEq K] (m : List (K × V)) (k : K) : Option V :=
  match m with
  | [] => none
  | (k', v) :: rest => if k' = k then some v else dictGet rest k

/-- Embeds `converts = set(x.key for x in self)` from `convert`. -/
def convertsOf [DecidableEq K] (t : ConversionTable K V I R) : Finset K :=
  (t.rules.map fun c => c.key).toFinset

/-- Embeds `avail = set(d.iterkeys())` from `convert`. -/
def availOf [DecidableEq K] (m : List (K × V)) : Finset K :=
  (m.map Prod.fst).toFinset

/-- Embeds `required = set(x.key for x in self if x.required)` from `convert`. -/
def requiredOf [DecidableEq K] (t : ConversionTable K V I R) : Finset K :=
  ((t.rules.filter fun c => c.required).map fun c => c.key).toFinset

/-- The first loop of `convert`: for each converter in table order whose key
is in the dictionary, `c.convertItem(c.key, c.convertValue(d[c.key]))`,
appended only when not `None` (absent key contributes nothing, `None` item is
dropped). -/
def ruleItems [DecidableEq K] (rules : List (Converter K V I)) (m : List (K × V)) : List I :=
  rules.filterMap fun c =>
    (dictGet m c.key).bind fun v => c.convertItem c.key (c.convertValue v)

/-- Embeds `sorted(avail - converts)` from `convert`: the set difference of the
dictionary's keys and the converters' keys (`dedup` for set-ness, `filter`
for the difference), in sorted order. -/
def genKeys [LinearOrder K] (t : ConversionTable K V I R) (m : List (K × V)) : List K :=
  List.insertionSort (fun a b => a ≤ b)
    ((m.map Prod.fst).dedup.filter fun k => k ∉ convertsOf t)

/-- The body of the second loop of `convert`:
`self.genericItem(key, self.genericValue(d[key]))`, `None` meaning no item. -/
def genItemOf [DecidableEq K] (t : ConversionTable K V I R) (m : List (K × V)) (k : K) :
    Option I :=
  (dictGet m k).bind fun v => t.genericItem k (t.genericValue v)

/-- The second loop of `convert`: the generic items for the sorted unmatched
keys, `None` results dropped. -/
def genericItems [LinearOrder K] (t : ConversionTable K V I R) (m : List (K × V)) : List I :=
  (genKeys t m).filterMap (genItemOf t m)

/-- Embedding of `ConversionTable.convert` from the source: raise `ValueError` naming the
missing required keys when some required key is absent, otherwise aggregate
the rule-driven items followed by the generic items. -/
def ConversionTable.convert [LinearOrder K] (t : ConversionTable K V I R)
    (m : List (K × V)) : Except (Finset K) R :=
  let missing := requiredOf t \ availOf m
  if missing ≠ ∅ then
    Except.error missing
  else
    Except.ok (t.aggregate (ruleItems t.rules m ++ genericItems t m))

/-- Version of `convert` with the method-call state made explicit: the pair
`(self, d)` as it stands when the call returns, alongside the return value.
Translated statement by statement from the source, which assigns only to the
locals `converts`, `avail`, `required`, `missing`, `l`, `item` and never to
`self` or `d`. -/
def ConversionTable.convertMut [LinearOrder K] (t : ConversionTable K V I R)
    (m : List (K × V)) :
    (ConversionTable K V I R × List (K × V)) × Except (Finset K) R :=
  let missing := requiredOf t \ availOf m
  if missing ≠ ∅ then
    ((t, m), Except.error missing)
  else
    ((t, m), Except.ok (t.aggregate (ruleItems t.rules m ++ genericItems t m)))

/-!
### Construction (`ConversionTable.__init__`)

An element of the constructor's sequence is a Python value probed with
`isinstance`: a `Converter`, a tuple, a list, a dict of keyword arguments, or
anything else.  A tuple or list either carries 3 or 4 positional arguments of
the shapes `Converter.__init__` accepts (`args3` / `args4`), or has some
other length (`wrongLen`, which carries a proof that the length is neither 3
nor 4 — a well-shaped 3- or 4-tuple is represented by `args3` / `args4`).
Values of any other runtime type are collapsed into `other`, distinguished
by a numeric tag. -/

/-- Positional arguments carried by a tuple or list element. -/
inductive ConvArgs (K V I : Type) where
  | args3 (key : K) (cv : V → V) (ci : K → V → Option I)
  | args4 (key : K) (cv : V → V) (ci : K → V → Option I) (required : Bool)
  | wrongLen (n : Nat) (h : n ≠ 3 ∧ n ≠ 4)

/-- Embeds `len(i)` for a tuple or list element. -/
def ConvArgs.len : ConvArgs K V I → Nat
  | .args3 _ _ _ => 3
  | .args4 _ _ _ _ => 4
  | .wrongLen n _ => n

/-- Embeds `Converter(*i)` for a 3- or 4-element tuple or list; none otherwise.
The constructor pattern match on `args3` / `args4` is exactly the source's
`len(i) in (3, 4)` test, since `wrongLen` carries all other lengths. -/
def ConvArgs.toConverter : ConvArgs K V I → Option (Converter K V I)
  | .args3 k cv ci => some ⟨k, cv, ci, false⟩
  | .args4 k cv ci r => some ⟨k, cv, ci, r⟩
  | .wrongLen _ _ => none

/-- One element of the sequence given to `ConversionTable.__init__`. -/
inductive PyElem (K V I : Type) where
  | conv (c : Converter K V I)
  | tup (a : ConvArgs K V I)
  | lst (a : ConvArgs K V I)
  | kw (key : K) (cv : V → V) (ci : K → V → Option I) (required : Option Bool)
  | other (tag : Nat)

/-- Whether `__init__` accepts the element: a `Converter`, a tuple or list of
length 3 or 4, or a keyword dict. -/
def PyElem.good : PyElem K V I → Bool
  | .conv _ => true
  | .tup a => a.len = 3 ∨ a.len = 4
  | .lst a => a.len = 3 ∨ a.len = 4
  | .kw _ _ _ _ => true
  | .other _ => false

/-- The converter an accepted element turns into (`kw` with `required`
omitted takes `Converter.__init__`'s default `false`). -/
def PyElem.toConverter : PyElem K V I → Option (Converter K V I)
  | .conv c => some c
  | .tup a => a.toConverter
  | .lst a => a.toConverter
  | .kw k cv ci r => some ⟨k, cv, ci, r.getD false⟩
  | .other _ => none

/-- Embedding of `ConversionTable.__init__` from the source: walk the sequence in order;
append a `Converter` as is, coerce a 3/4-length tuple or list via
`self.add(*i)`, coerce a dict via `self.add(**i)`, and raise
`ValueError("Bad converter: ...")`, carrying the offending element, for
anything else.  The error aborts construction, so the result is
`Except`: either the full converter list in input order, or the offending
element. -/
def initSeq [DecidableEq K] :
    List (PyElem K V I) → Except (PyElem K V I) (List (Converter K V I))
  | [] => Except.ok []
  | i :: rest =>
    match i with
    | .conv c => (initSeq rest).map fun l => c :: l
    | .tup a =>
      match a.toConverter with
      | some c => (initSeq rest).map fun l => c :: l
      | none => Except.error (PyElem.tup a)
    | .lst a =>
      match a.toConverter with
      | some c => (initSeq rest).map fun l => c :: l
      | none => Except.error (PyElem.lst a)
    | .kw k cv ci r => (initSeq rest).map fun l => (⟨k, cv, ci, r.getD false⟩ : Converter K V I) :: l
    | .other tag => Except.error (PyElem.other tag)

/-!
### Collection operations: `add`, `delete`, `copy`
-/

/-- Embedding of `ConversionTable.add`: append a converter built from the arguments. -/
def ConversionTable.pythonAdd (t : ConversionTable K V I R) (c : Converter K V I) :
    ConversionTable K V I R :=
  { t with rules := t.rules ++ [c] }

/-- The loop of `ConversionTable.delete`, with Python's
`for i, c in enumerate(self): if c.key == key: del self[i]` semantics made
explicit: the iterator's cursor `i` advances by one each step over the list
as it currently stands, and `del self[i]` shifts later elements down without
moving the cursor back. -/
def deleteLoop [DecidableEq K] (key : K) (i : Nat) (l : List (Converter K V I)) :
    List (Converter K V I) :=
  if h : i < l.length then
    if (l.get ⟨i, h⟩).key = key then deleteLoop key (i + 1) (l.eraseIdx i)
    else deleteLoop key (i + 1) l
  else l
termination_by l.length - i
decreasing_by
  · have := List.length_eraseIdx_of_lt h
    omega
  · omega

/-- Embedding of `ConversionTable.delete` from the source. -/
def ConversionTable.pythonDelete [DecidableEq K] (t : ConversionTable K V I R) (key : K) :
    ConversionTable K V I R :=
  { t with rules := deleteLoop key 0 t.rules }

/-!
### A store model for `copy`

`copy` returns `copy.deepcopy(self)`; its point is that the returned object
shares no mutable state with the original.  To state that in a pure
embedding, Python object references are modelled explicitly: a store is a
list of table objects and a reference is an index into it.  A method call
`r.copy()` allocates a fresh object holding the same value and returns its
reference; `r.delete(k)` and `r.add(c)` update the object at `r` in place.
-/

/-- The heap of `ConversionTable` objects. -/
abbrev Store (K V I R : Type) : Type := List (ConversionTable K V I R)

/-- Method call `r.copy()`: allocate a deep copy as a fresh object, return its
reference. -/
def copyOp (s : Store K V I R) (r : Nat) : Store K V I R × Nat :=
  match s[r]? with
  | some t => (s ++ [t], s.length)
  | none => (s, r)

/-- Method call `r.delete(key)` as a store update. -/
def deleteOp [DecidableEq K] (s : Store K V I R) (r : Nat) (key : K) : Store K V I R :=
  match s[r]? with
  | some t => s.set r (t.pythonDelete key)
  | none => s

/-- Method call `r.add(c)` as a store update. -/
def addOp (s : Store K V I R) (r : Nat) (c : Converter K V I) : Store K V I R :=
  match s[r]? with
  | some t => s.set r (t.pythonAdd c)
  | none => s

/-!
### Concrete instances used in witnesses

The spec's concrete scenario: one rule on key `1` (standing for `"a"`),
doubling its value, with the pair-forming item transform, marked required;
the generic policies are the source's defaults (`genericValue` the identity,
`genericItem` pair-forming), and `aggregate` keeps the item list itself so
that the aggregated output can be inspected.  Keys and values are `Nat`,
items are pairs, results are lists of pairs.
-/

/-- Embeds `Converter("a", lambda v: v*2, lambda k, v: (k, v), required=True)`. -/
def wRule : Converter Nat Nat (Nat × Nat) :=
  ⟨1, fun v => 2 * v, fun k v => some (k, v), true⟩

/-- A second converter on the same key with its own transforms. -/
def wRuleB : Converter Nat Nat (Nat × Nat) :=
  ⟨1, fun v => v + 1, fun k v => some (k, 10 * v), false⟩

/-- A converter whose `convertItem` always returns the `None` sentinel. -/
def wRuleNone : Converter Nat Nat (Nat × Nat) :=
  ⟨1, fun v => v, fun _ _ => none, true⟩

/-- A table holding just `wRule`. -/
def wTable : ConversionTable Nat Nat (Nat × Nat) (List (Nat × Nat)) :=
  ⟨[wRule], fun v => v, fun k v => some (k, v), fun l => l⟩

/-- A table with two converters sharing key `1`. -/
def wTableFan : ConversionTable Nat Nat (Nat × Nat) (List (Nat × Nat)) :=
  ⟨[wRule, wRuleB], fun v => v, fun k v => some (k, v), fun l => l⟩

/-- A table with no converters at all. -/
def wTableEmpty : ConversionTable Nat Nat (Nat × Nat) (List (Nat × Nat)) :=
  ⟨[], fun v => v, fun k v => some (k, v), fun l => l⟩

/-- A table whose single converter drops every item. -/
def wTableNone : ConversionTable Nat Nat (Nat × Nat) (List (Nat × Nat)) :=
  ⟨[wRuleNone], fun v => v, fun k v => some (k, v), fun l => l⟩

/-- The dictionary with keys 1, 2 and values 3, 5 (the scenario's `a: 3, b: 5`). -/
def wDict : List (Nat × Nat) := [(1, 3), (2, 5)]

/-- The dictionary with only key 2: missing the required key 1. -/
def wDictMissing : List (Nat × Nat) := [(2, 5)]

/-- The dictionary with only the pair (1, 3), for the fan-out scenario. -/
def wDictFan : List (Nat × Nat) := [(1, 3)]

/-- The pairs (3, 30), (1, 10) in one insertion order... -/
def wDictPerm₁ : List (Nat × Nat) := [(3, 30), (1, 10)]

/-- The same pairs in the other insertion order. -/
def wDictPerm₂ : List (Nat × Nat) := [(1, 10), (3, 30)]

/-- An accepted constructor element: an already-built converter. -/
def wPyGood : PyElem Nat Nat (Nat × Nat) := PyElem.conv wRule

/-- A rejected constructor element: neither converter, tuple, list nor
dict. -/
def wPyBad : PyElem Nat Nat (Nat × Nat) := PyElem.other 0

/-- A 3-element positional argument pack. -/
def wArgs3 : ConvArgs Nat Nat (Nat × Nat) :=
  ConvArgs.args3 2 (fun v => v) (fun k v => some (k, v))

/-- Two converters with the same key `7`, adjacent in a table. -/
def cDupA : Converter Nat Nat (Nat × Nat) := ⟨7, fun v => v, fun k v => some (k, v), false⟩

/-- The second of the two adjacent duplicates. -/
def cDupB : Converter Nat Nat (Nat × Nat) := ⟨7, fun v => v + 1, fun k v => some (k, v + v), false⟩

/-- A table whose two converters for key `7` sit next to each other. -/
def wTableDup : ConversionTable Nat Nat (Nat × Nat) (List (Nat × Nat)) :=
  ⟨[cDupA, cDupB], fun v => v, fun k v => some (k, v), fun l => l⟩

/-!
### Dictionary lemmas
-/

theorem dictGet_eq_none_iff [DecidableEq K] (m : List (K × V)) (k : K) :
    dictGet m k = none ↔ k ∉ m.map Prod.fst := by
  induction m with
  | nil => simp [dictGet]
  | cons p rest ih =>
    obtain ⟨k', v⟩ := p
    by_cases h : k' = k
    · subst h
      simp [dictGet]
    · rw [List.map_cons, List.mem_cons, dictGet]
      simp only [if_neg h, ih]
      constructor
      · intro hk h1
        rcases h1 with h1 | h1
        · exact h h1.symm
        · exact hk h1
      · intro hk h1
        exact hk (Or.inr h1)

theorem mem_of_dictGet_eq_some [DecidableEq K] {m : List (K × V)} {k : K} {v : V}
    (h : dictGet m k = some v) : (k, v) ∈ m := by
  induction m with
  | nil => simp [dictGet] at h
  | cons p rest ih =>
    obtain ⟨k', v'⟩ := p
    by_cases hk : k' = k
    · subst hk
      simp [dictGet] at h
      simp [h]
    · simp [dictGet, hk] at h
      simp [ih h]

theorem dictGet_eq_some_of_mem [DecidableEq K] {m : List (K × V)} {k : K} {v : V}
    (hn : (m.map Prod.fst).Nodup) (h : (k, v) ∈ m) : dictGet m k = some v := by
  induction m with
  | nil => simp at h
  | cons p rest ih =>
    obtain ⟨k', v'⟩ := p
    simp only [List.map_cons, List.nodup_cons] at hn
    rcases List.mem_cons.mp h with h1 | h1
    · obtain ⟨h2, h3⟩ := Prod.ext_iff.mp h1
      subst h2
      subst h3
      simp [dictGet]
    · have hne : k' ≠ k := by
        rintro rfl
        exact hn.1 (List.mem_map.mpr ⟨(k', v), h1, rfl⟩)
      simp [dictGet, hne, ih hn.2 h1]

theorem dictGet_perm [DecidableEq K] {m₁ m₂ : List (K × V)}
    (hn : (m₁.map Prod.fst).Nodup) (hp : m₁.Perm m₂) (k : K) :
    dictGet m₁ k = dictGet m₂ k := by
  have hkeys : (m₁.map Prod.fst).Perm (m₂.map Prod.fst) := hp.map Prod.fst
  have hn₂ : (m₂.map Prod.fst).Nodup := hkeys.nodup_iff.mp hn
  cases h : dictGet m₁ k with
  | some v =>
    exact (dictGet_eq_some_of_mem hn₂ (hp.mem_iff.mp (mem_of_dictGet_eq_some h))).symm
  | none =>
    have h1 : k ∉ m₁.map Prod.fst := (dictGet_eq_none_iff m₁ k).mp h
    have h2 : k ∉ m₂.map Prod.fst := fun hk => h1 (hkeys.mem_iff.mpr hk)
    exact ((dictGet_eq_none_iff m₂ k).mpr h2).symm

/-- Dropping from a `filterMap` every occurrence of an element the function
sends to `none` leaves the result unchanged. -/
theorem filterMap_filter_ne {α β : Type} [DecidableEq α] (f : α → Option β) (k : α)
    (hf : f k = none) (l : List α) :
    l.filterMap f = (l.filter fun x => x ≠ k).filterMap f := by
  induction l with
  | nil => rfl
  | cons a l ih =>
    by_cases h : a = k
    · subst h
      simp [List.filterMap_cons, hf, ih]
    · simp [List.filterMap_cons, h, ih]

/-!
### Construction lemmas
-/

theorem initSeq_ok_of_good [DecidableEq K] (es : List (PyElem K V I))
    (h : ∀ e ∈ es, PyElem.good e = true) :
    initSeq es = Except.ok (es.filterMap PyElem.toConverter) := by
  induction es with
  | nil => rfl
  | cons e rest ih =>
    have he := h e (List.mem_cons_self e rest)
    have hrest := ih fun x hx => h x (List.mem_cons_of_mem e hx)
    cases e with
    | conv c =>
      simp [initSeq, PyElem.toConverter, hrest, List.filterMap_cons, Except.map]
    | tup a =>
      cases a with
      | args3 k cv ci =>
        simp [initSeq, PyElem.toConverter, ConvArgs.toConverter, hrest, List.filterMap_cons,
          Except.map]
      | args4 k cv ci r =>
        simp [initSeq, PyElem.toConverter, ConvArgs.toConverter, hrest, List.filterMap_cons,
          Except.map]
      | wrongLen n hn =>
        exfalso
        simp [PyElem.good, ConvArgs.len] at he
        rcases he with h3 | h4
        · exact hn.1 h3
        · exact hn.2 h4
    | lst a =>
      cases a with
      | args3 k cv ci =>
        simp [initSeq, PyElem.toConverter, ConvArgs.toConverter, hrest, List.filterMap_cons,
          Except.map]
      | args4 k cv ci r =>
        simp [initSeq, PyElem.toConverter, ConvArgs.toConverter, hrest, List.filterMap_cons,
          Except.map]
      | wrongLen n hn =>
        exfalso
        simp [PyElem.good, ConvArgs.len] at he
        rcases he with h3 | h4
        · exact hn.1 h3
        · exact hn.2 h4
    | kw k cv ci r =>
      simp [initSeq, PyElem.toConverter, hrest, List.filterMap_cons, Except.map]
    | other tag =>
      simp [PyElem.good] at he

theorem initSeq_error_of_find [DecidableEq K] (es : List (PyElem K V I)) (e : PyElem K V I)
    (h : es.find? (fun x => !PyElem.good x) = some e) :
    initSeq es = Except.error e := by
  induction es with
  | nil => simp [List.find?] at h
  | cons x rest ih =>
    by_cases hx : PyElem.good x = true
    · rw [List.find?_cons_of_neg _ (by simp [hx])] at h
      have hrest := ih h
      cases x with
      | conv c => simp [initSeq, hrest, Except.map]
      | tup a =>
        cases a with
        | args3 k cv ci => simp [initSeq, ConvArgs.toConverter, hrest, Except.map]
        | args4 k cv ci r => simp [initSeq, ConvArgs.toConverter, hrest, Except.map]
        | wrongLen n hn =>
          exfalso
          simp [PyElem.good, ConvArgs.len] at hx
          rcases hx with h3 | h4
          · exact hn.1 h3
          · exact hn.2 h4
      | lst a =>
        cases a with
        | args3 k cv ci => simp [initSeq, ConvArgs.toConverter, hrest, Except.map]
        | args4 k cv ci r => simp [initSeq, ConvArgs.toConverter, hrest, Except.map]
        | wrongLen n hn =>
          exfalso
          simp [PyElem.good, ConvArgs.len] at hx
          rcases hx with h3 | h4
          · exact hn.1 h3
          · exact hn.2 h4
      | kw k cv ci r => simp [initSeq, hrest, Except.map]
      | other tag => simp [PyElem.good] at hx
    · rw [List.find?_cons_of_pos _ (by simp [hx])] at h
      injection h with h
      subst h
      cases x with
      | conv c => exact absurd rfl hx
      | tup a =>
        cases a with
        | args3 k cv ci => exact absurd (by simp [PyElem.good, ConvArgs.len]) hx
        | args4 k cv ci r => exact absurd (by simp [PyElem.good, ConvArgs.len]) hx
        | wrongLen n hn => simp [initSeq, ConvArgs.toConverter]
      | lst a =>
        cases a with
        | args3 k cv ci => exact absurd (by simp [PyElem.good, ConvArgs.len]) hx
        | args4 k cv ci r => exact absurd (by simp [PyElem.good, ConvArgs.len]) hx
        | wrongLen n hn => simp [initSeq, ConvArgs.toConverter]
      | kw k cv ci r => exact absurd rfl hx
      | other tag => simp [initSeq]

theorem initSeq_isOk_iff [DecidableEq K] (es : List (PyElem K V I)) :
    (initSeq es).isOk = true ↔ ∀ e ∈ es, PyElem.good e = true := by
  constructor
  · intro h
    by_contra hbad
    push_neg at hbad
    obtain ⟨e, he, hge⟩ := hbad
    have : (es.find? fun x => !PyElem.good x).isSome := by
      rw [List.find?_isSome]
      exact ⟨e, he, by simp [hge]⟩
    obtain ⟨e', he'⟩ := Option.isSome_iff_exists.mp this
    rw [initSeq_error_of_find es e' he'] at h
    simp [Except.isOk, Except.toBool] at h
  · intro h
    rw [initSeq_ok_of_good es h]
    rfl

/-- When every required key is available, `convert` takes its success
branch. -/
theorem convert_eq_ok_aux [LinearOrder K] {t : ConversionTable K V I R}
    {m : List (K × V)} (h : requiredOf t ⊆ availOf m) :
    t.convert m = Except.ok (t.aggregate (ruleItems t.rules m ++ genericItems t m)) := by
  unfold ConversionTable.convert
  simp [Finset.sdiff_eq_empty_iff_subset.mpr h]

/-!
### Claim theorems
-/

/-- Claim C1: For every rule table `T` and every input mapping `m` that
contains every key of a rule marked required in `T`, `convert m` succeeds
and returns exactly `aggregate` applied to the concatenation of the
rule-driven items (in table order, `convertItem key (convertValue m[key])`
for each rule whose key is present) followed by the generic items (for the
keys matched by no rule, in sorted key order). -/
theorem convert_ok_of_required_subset [LinearOrder K] (t : ConversionTable K V I R)
    (m : List (K × V)) (h : requiredOf t ⊆ availOf m) :
    t.convert m = Except.ok (t.aggregate (ruleItems t.rules m ++ genericItems t m)) :=
  convert_eq_ok_aux h

theorem convert_ok_of_required_subset_witness :
    (requiredOf wTable ⊆ availOf wDict ∧
      wTable.convert wDict =
        Except.ok (wTable.aggregate (ruleItems wTable.rules wDict ++ genericItems wTable wDict))) ∧
      wTable.convert wDict = Except.ok [(1, 6), (2, 5)] :=
  ⟨⟨by decide, convert_ok_of_required_subset wTable wDict (by decide)⟩, by rfl⟩

/-- Claim C2: For every rule table `T` and every input mapping `m` lacking at
least one required key, `convert m` raises a validation error carrying the
full (nonempty) set of missing required keys, and no result is produced. -/
theorem convert_error_names_all_missing [LinearOrder K] (t : ConversionTable K V I R)
    (m : List (K × V)) (h : ¬ requiredOf t ⊆ availOf m) :
    t.convert m = Except.error (requiredOf t \ availOf m) ∧
      (requiredOf t \ availOf m).Nonempty := by
  have hne : (requiredOf t \ availOf m).Nonempty := Finset.sdiff_nonempty.mpr h
  refine ⟨?_, hne⟩
  unfold ConversionTable.convert
  simp [Finset.nonempty_iff_ne_empty.mp hne]

theorem convert_error_names_all_missing_witness :
    (¬ requiredOf wTable ⊆ availOf wDictMissing ∧
      wTable.convert wDictMissing =
        Except.error (requiredOf wTable \ availOf wDictMissing)) ∧
      requiredOf wTable \ availOf wDictMissing = {1} :=
  ⟨⟨by decide,
    (convert_error_names_all_missing wTable wDictMissing (by decide)).1⟩, by decide⟩

/-- Claim C9: `convert` leaves both the table and the input mapping unchanged:
in the state-explicit translation `convertMut`, the table and dictionary
after the call are the ones passed in, and the returned value is
`convert`'s. -/
theorem convert_mutates_nothing [LinearOrder K] (t : ConversionTable K V I R)
    (m : List (K × V)) :
    (t.convertMut m).1.1 = t ∧ (t.convertMut m).1.2 = m ∧
      (t.convertMut m).2 = t.convert m := by
  unfold ConversionTable.convertMut ConversionTable.convert
  by_cases h : requiredOf t \ availOf m ≠ ∅ <;> simp [h]

/-- Claim C4: When several rules share a key `k` present in the input, every
one of them fires, in table order, each applying its own `convertValue` to
the same raw value `m[k]` and each contributing its own (optional) item to
the list passed to `aggregate`. -/
theorem ruleItems_fanout [DecidableEq K] (t : ConversionTable K V I R)
    (m : List (K × V)) (l₁ l₂ l₃ : List (Converter K V I)) (c₁ c₂ : Converter K V I)
    (k : K) (v : V) (hr : t.rules = l₁ ++ c₁ :: (l₂ ++ c₂ :: l₃))
    (h₁ : c₁.key = k) (h₂ : c₂.key = k) (hv : dictGet m k = some v) :
    ruleItems t.rules m =
      ruleItems l₁ m ++ ((c₁.convertItem k (c₁.convertValue v)).toList ++
        (ruleItems l₂ m ++ ((c₂.convertItem k (c₂.convertValue v)).toList ++
          ruleItems l₃ m))) := by
  subst h₁
  rw [hr]
  cases hc₁ : c₁.convertItem c₁.key (c₁.convertValue v) <;>
    cases hc₂ : c₂.convertItem c₁.key (c₂.convertValue v) <;>
      simp [ruleItems, List.filterMap_append, List.filterMap_cons, hv, h₂, hc₁, hc₂]

theorem ruleItems_fanout_witness :
    (ruleItems wTableFan.rules wDictFan =
      ruleItems [] wDictFan ++ ((wRule.convertItem 1 (wRule.convertValue 3)).toList ++
        (ruleItems [] wDictFan ++ ((wRuleB.convertItem 1 (wRuleB.convertValue 3)).toList ++
          ruleItems [] wDictFan)))) ∧
      ruleItems wTableFan.rules wDictFan = [(1, 6), (1, 40)] :=
  ⟨ruleItems_fanout wTableFan wDictFan [] [] [] wRule wRuleB 1 3 rfl rfl rfl rfl,
    by rfl⟩

/-- Claim C6: The generic-item portion of the output does not depend on the
input mapping's insertion order: for two association lists with the same
key/value pairs (the keys duplicate-free, as in a dictionary), the generic
items coincide, because the unmatched keys are processed in sorted order. -/
theorem genericItems_perm_invariant [LinearOrder K] (t : ConversionTable K V I R)
    (m₁ m₂ : List (K × V)) (hn : (m₁.map Prod.fst).Nodup) (hp : m₁.Perm m₂) :
    genericItems t m₁ = genericItems t m₂ := by
  have hkeys : (m₁.map Prod.fst).Perm (m₂.map Prod.fst) := hp.map Prod.fst
  have hgk : genKeys t m₁ = genKeys t m₂ := by
    unfold genKeys
    refine List.eq_of_perm_of_sorted
      ((List.perm_insertionSort _ _).trans
        (((hkeys.dedup.filter _).trans (List.perm_insertionSort _ _).symm)))
      (List.sorted_insertionSort _ _) (List.sorted_insertionSort _ _)
  unfold genericItems
  rw [hgk]
  exact List.filterMap_congr fun k _ => by
    unfold genItemOf
    rw [dictGet_perm hn hp k]

theorem genericItems_perm_invariant_witness :
    (((wDictPerm₁.map Prod.fst).Nodup ∧ wDictPerm₁.Perm wDictPerm₂) ∧
      genericItems wTableEmpty wDictPerm₁ = genericItems wTableEmpty wDictPerm₂) ∧
      genericItems wTableEmpty wDictPerm₁ = [(1, 10), (3, 30)] :=
  ⟨⟨⟨by decide, by decide⟩,
    genericItems_perm_invariant wTableEmpty wDictPerm₁ wDictPerm₂ (by decide) (by decide)⟩,
    by rfl⟩

/-- Claim C7: A `convertItem` result equal to the `None` sentinel is dropped:
the rule contributes no item to the list passed to `aggregate`; likewise a
`None` `genericItem` result is dropped from the generic portion; and
`convert` still succeeds. -/
theorem sentinel_item_dropped [LinearOrder K] (t : ConversionTable K V I R)
    (m : List (K × V)) (l₁ l₂ : List (Converter K V I)) (c : Converter K V I) (v : V)
    (hr : t.rules = l₁ ++ c :: l₂) (hv : dictGet m c.key = some v)
    (hnone : c.convertItem c.key (c.convertValue v) = none)
    (hreq : requiredOf t ⊆ availOf m) :
    (ruleItems t.rules m = ruleItems l₁ m ++ ruleItems l₂ m ∧
      t.convert m =
        Except.ok (t.aggregate (ruleItems l₁ m ++ ruleItems l₂ m ++ genericItems t m))) ∧
      ∀ k, genItemOf t m k = none →
        genericItems t m =
          ((genKeys t m).filter fun x => x ≠ k).filterMap (genItemOf t m) := by
  have h1 : ruleItems t.rules m = ruleItems l₁ m ++ ruleItems l₂ m := by
    rw [hr]
    simp [ruleItems, List.filterMap_append, List.filterMap_cons, hv, hnone]
  refine ⟨⟨h1, ?_⟩, ?_⟩
  · rw [convert_eq_ok_aux hreq, h1, List.append_assoc]
  · intro k hk
    exact filterMap_filter_ne (genItemOf t m) k hk (genKeys t m)

theorem sentinel_item_dropped_witness :
    ((ruleItems wTableNone.rules wDict = ruleItems [] wDict ++ ruleItems [] wDict ∧
      wTableNone.convert wDict =
        Except.ok (wTableNone.aggregate
          (ruleItems [] wDict ++ ruleItems [] wDict ++ genericItems wTableNone wDict))) ∧
      ∀ k, genItemOf wTableNone wDict k = none →
        genericItems wTableNone wDict =
          ((genKeys wTableNone wDict).filter fun x => x ≠ k).filterMap
            (genItemOf wTableNone wDict)) ∧
      wTableNone.convert wDict = Except.ok [(2, 5)] :=
  ⟨sentinel_item_dropped wTableNone wDict [] [] wRuleNone 3 rfl rfl rfl (by decide),
    by rfl⟩

/-- Claim C3: The claim says `delete` removes *every* converter whose key
matches, including when such converters are adjacent — and the source's own
docstring says the same — but the loop deletes while iterating: after
removing the converter at the cursor, the element shifted into its place is
skipped.  On a table whose two converters for key `7` are adjacent,
`delete 7` keeps the second one. -/
theorem delete_keeps_adjacent_duplicate :
    (wTableDup.pythonDelete 7).rules = [cDupB] ∧ cDupB.key = 7 := by
  constructor
  · show deleteLoop 7 0 [cDupA, cDupB] = [cDupB]
    rw [deleteLoop]
    simp [cDupA]
    rw [deleteLoop]
    simp
  · rfl

/-- Claim C5: Rule-table construction succeeds exactly when every element of
the sequence is an already-built converter, a 3/4-length positional tuple,
or a keyword mapping; it then preserves the elements' order.  Otherwise it
fails at the first offending element, and the error carries that element. -/
theorem init_characterization [DecidableEq K] (es : List (PyElem K V I)) :
    ((initSeq es).isOk = true ↔ ∀ e ∈ es, PyElem.good e = true) ∧
    ((∀ e ∈ es, PyElem.good e = true) →
      initSeq es = Except.ok (es.filterMap PyElem.toConverter)) ∧
    (∀ e, es.find? (fun x => !PyElem.good x) = some e → initSeq es = Except.error e) :=
  ⟨initSeq_isOk_iff es, initSeq_ok_of_good es, fun e he => initSeq_error_of_find es e he⟩

theorem init_characterization_witness :
    initSeq [wPyGood, wPyBad] = Except.error wPyBad ∧
      initSeq [wPyGood] = Except.ok [wRule] :=
  ⟨(init_characterization [wPyGood, wPyBad]).2.2 wPyBad (by rfl),
    (init_characterization [wPyGood]).2.1 (by decide)⟩

/-- Claim C8: With object references modelled explicitly, `copy` returns a
fresh object whose `convert` agrees with the original's, and mutating the
copy by `delete` or `add` leaves the object behind the original reference —
hence its rules and its `convert` behaviour — untouched. -/
theorem copy_is_independent [LinearOrder K] (s : Store K V I R) (r : Nat)
    (t : ConversionTable K V I R) (h : s[r]? = some t) (m : List (K × V)) (key : K)
    (c : Converter K V I) :
    (((copyOp s r).1)[(copyOp s r).2]?.map fun u => u.convert m) = some (t.convert m) ∧
    (deleteOp (copyOp s r).1 (copyOp s r).2 key)[r]? = some t ∧
    (addOp (copyOp s r).1 (copyOp s r).2 c)[r]? = some t := by
  have hr : r < s.length := (List.getElem?_eq_some.mp h).1
  have hcopy : copyOp s r = (s ++ [t], s.length) := by
    simp [copyOp, h]
  have hget : (s ++ [t])[s.length]? = some t := List.getElem?_concat_length s t
  have happ : ∀ x : ConversionTable K V I R, (s ++ [x])[r]? = some t := by
    intro x
    rw [List.getElem?_append]
    simp [hr]
    obtain ⟨h1, h2⟩ := List.getElem?_eq_some.mp h
    exact h2
  rw [hcopy]
  refine ⟨?_, ?_, ?_⟩
  · simp [hget]
  · simp [deleteOp, hget, happ]
  · simp [addOp, hget, happ]

theorem copy_is_independent_witness :
    ((((copyOp [wTable] 0).1)[(copyOp [wTable] 0).2]?.map fun u => u.convert wDict) =
      some (wTable.convert wDict)) ∧
    (deleteOp (copyOp [wTable] 0).1 (copyOp [wTable] 0).2 1)[0]? = some wTable ∧
    (addOp (copyOp [wTable] 0).1 (copyOp [wTable] 0).2 wRuleB)[0]? = some wTable :=
  copy_is_independent [wTable] 0 wTable (by rfl) wDict 1 wRuleB

/-- Claim C10: Construction accepts a *list* of length 3 or 4 exactly like the
corresponding positional tuple: the element is good, and building the table
with the list element yields the same outcome as with the tuple element in
the same position. -/
theorem initSeq_lst_eq_tup [DecidableEq K] (a : ConvArgs K V I)
    (h : a.len = 3 ∨ a.len = 4) (pre post : List (PyElem K V I)) :
    initSeq (pre ++ PyElem.lst a :: post) = initSeq (pre ++ PyElem.tup a :: post) ∧
      PyElem.good (PyElem.lst a) = true := by
  constructor
  · induction pre with
    | nil =>
      cases a with
      | args3 k cv ci => rfl
      | args4 k cv ci r => rfl
      | wrongLen n hn =>
        exfalso
        simp [ConvArgs.len] at h
        rcases h with h3 | h4
        · exact hn.1 h3
        · exact hn.2 h4
    | cons x pre ih =>
      cases x with
      | conv c =>
        simp only [List.cons_append, initSeq]
        exact congrArg _ ih
      | tup b =>
        cases hb : b.toConverter with
        | none => simp only [List.cons_append, initSeq, hb]
        | some c =>
          simp only [List.cons_append, initSeq, hb]
          exact congrArg _ ih
      | lst b =>
        cases hb : b.toConverter with
        | none => simp only [List.cons_append, initSeq, hb]
        | some c =>
          simp only [List.cons_append, initSeq, hb]
          exact congrArg _ ih
      | kw k cv ci r =>
        simp only [List.cons_append, initSeq]
        exact congrArg _ ih
      | other tag =>
        simp only [List.cons_append, initSeq]
  · simp [PyElem.good, h]

theorem initSeq_lst_eq_tup_witness :
    (initSeq ([] ++ PyElem.lst wArgs3 :: []) = initSeq ([] ++ PyElem.tup wArgs3 :: []) ∧
      PyElem.good (PyElem.lst wArgs3) = true) ∧
      initSeq [PyElem.lst wArgs3] =
        Except.ok [⟨2, fun v => v, fun k v => some (k, v), false⟩] :=
  ⟨initSeq_lst_eq_tup wArgs3 (Or.inl rfl) [] [], by rfl⟩
